import Mathlib

/-!
Shallow embedding of the `httpfltr` eBPF tracer package
(`pkg/ebpf/httpfltr/httpfltr.go`): the event decoder (`toRequestTrace`,
`url`, `method`), the process-identity resolver (`serviceName`,
`commName`, `commNameOfDeadPid`, `cstr`) with its bounded LRU cache
(`activePids`), the probe declaration table (`KProbes`) and the constant
provider (`Constants`).

Go strings are byte strings; we model them as `List Nat` with each byte
in `0..255`.  The empty Go string `""` is `[]`.  Machine integers are
modelled as `Nat` (pids are only used as lookup keys, never with
overflowing arithmetic).
-/

/-- A Go string / byte buffer: a list of byte values. -/
abbrev ByteStr := List Nat

/-- The space byte, the delimiter `strings.Index(buf, " ")` searches for. -/
def spaceByte : Nat := 32

/-- Model of Go `strings.Index(s, needle)` for a single-byte needle
(and of `bytes.IndexByte`): index of the first occurrence of the byte,
`none` standing for Go's `-1`. -/
def strIndex (needle : Nat) : List Nat → Option Nat
  | [] => none
  | b :: rest => if b = needle then some 0 else (strIndex needle rest).map (· + 1)

/-- `BPFHTTPInfo.url` from the source: take the whole fixed buffer as one
string, find the first space; if absent return `""`; else find the next
space after it; if absent return `""`; else return
`buf[space+1 : nextSpace+space+1]`, the bytes strictly between the two
spaces. -/
def url (buf : ByteStr) : ByteStr :=
  match strIndex spaceByte buf with
  | none => []
  | some space =>
    match strIndex spaceByte (buf.drop (space + 1)) with
    | none => []
    | some nextSpace => (buf.drop (space + 1)).take nextSpace

/-- `BPFHTTPInfo.method` from the source: the bytes before the first
space of the whole fixed buffer, `""` when there is no space. -/
def method (buf : ByteStr) : ByteStr :=
  match strIndex spaceByte buf with
  | none => []
  | some space => buf.take space

/-- `cstr` from the source: `bytes.IndexByte(chars, 0)`; if no zero byte
is present keep the whole slice, otherwise keep the bytes before the
first zero byte. -/
def cstr (chars : ByteStr) : ByteStr :=
  match strIndex 0 chars with
  | none => chars
  | some addrLen => chars.take addrLen

/-- Byte-level whitespace as recognised by Go's `strings.TrimSpace` on
ASCII content: `'\t' '\n' '\v' '\f' '\r' ' '`. -/
def isGoSpace (b : Nat) : Bool := b = 32 || b = 9 || b = 10 || b = 11 || b = 12 || b = 13

/-- Model of Go `strings.TrimSpace`: drop whitespace bytes from both
ends of the string. -/
def trimSpace (s : ByteStr) : ByteStr :=
  ((s.dropWhile isGoSpace).reverse.dropWhile isGoSpace).reverse

/-! ## The raw event record and its decoder

`bpfHttpInfoT` is produced by `bpf2go` code generation and is not part of
the hand-written sources; its layout is therefore modelled from the spec.
-/

/-- `BPFConnInfo` (`bpfConnectionInfoT`). Modelled from the spec:
"fixed-layout pair of 16-byte address fields (source, destination)". -/
structure BPFConnInfo where
  S_addr : ByteStr
  D_addr : ByteStr
  deriving Repr, DecidableEq

/-- `BPFHTTPInfo` (`bpfHttpInfoT`). Modelled from the spec:
"fixed-layout record = {RawConnectionInfo, pid (4 bytes), fixed-capacity
raw byte buffer}", little-endian.  The buffer capacity is a fixed but
unspecified constant, carried here as the parameter `bufCap` of the
decoder. -/
structure BPFHTTPInfo where
  ConnInfo : BPFConnInfo
  Pid : Nat
  Buf : ByteStr
  deriving Repr, DecidableEq

/-- The fixed byte size of the raw event record for a given buffer
capacity: 16 + 16 address bytes, 4 pid bytes, `bufCap` buffer bytes. -/
def rawHTTPEventSize (bufCap : Nat) : Nat := 16 + 16 + 4 + bufCap

/-- The decode error of `binary.Read` on undersized input
(`io.ErrUnexpectedEOF`). -/
inductive DecodeError where
  | unexpectedEOF
  deriving Repr, DecidableEq

/-- Consume exactly `n` bytes from the front of the input, as
`binary.Read` does field by field; fewer than `n` available is a decode
error. -/
def readBytes (n : Nat) (bs : List Nat) : Except DecodeError (List Nat × List Nat) :=
  if n ≤ bs.length then .ok (bs.take n, bs.drop n) else .error .unexpectedEOF

/-- A little-endian 4-byte unsigned integer (each byte `< 256` for bytes
coming from a real record). -/
def readU32LE (bs : List Nat) : Nat :=
  match bs with
  | [b0, b1, b2, b3] => b0 + 256 * (b1 + 256 * (b2 + 256 * b3))
  | _ => 0

/-- `binary.Read(bytes.NewBuffer(raw), binary.LittleEndian, &event)`
over the modelled layout: source address, destination address, pid,
fixed-capacity buffer, read in order; any shortfall is
`DecodeError.unexpectedEOF`, and extra trailing bytes are ignored. -/
def decodeBPFHTTPInfo (bufCap : Nat) (bytes : List Nat) : Except DecodeError BPFHTTPInfo := do
  let (s, r1) ← readBytes 16 bytes
  let (d, r2) ← readBytes 16 r1
  let (pidB, r3) ← readBytes 4 r2
  let (b, _) ← readBytes bufCap r3
  .ok { ConnInfo := ⟨s, d⟩, Pid := readU32LE pidB, Buf := b }

/-! ## The bounded LRU identity cache

`var activePids, _ = lru.New[uint32, string](64)` — a
hashicorp/golang-lru v2 cache.  We model it as a recency-ordered
association list (most recently used first): `Get` moves a hit to the
front, `Add` inserts at the front and drops the last (least recently
used) entry when the capacity is exceeded.  There is no clock anywhere
in the model, exactly as in the code (`lru.New`, not an expirable
variant): eviction can only happen inside `Add`.
-/

/-- The LRU cache state: entries most-recently-used first, plus the
fixed capacity. -/
structure LRU where
  entries : List (Nat × ByteStr)
  cap : Nat
  deriving Repr, DecidableEq

/-- First value stored under a key, scanning from the most recent
entry. -/
def lookupKey (k : Nat) : List (Nat × ByteStr) → Option ByteStr
  | [] => none
  | e :: rest => if e.1 = k then some e.2 else lookupKey k rest

/-- Remove every entry stored under a key. -/
def eraseKey (k : Nat) : List (Nat × ByteStr) → List (Nat × ByteStr)
  | [] => []
  | e :: rest => if e.1 = k then eraseKey k rest else e :: eraseKey k rest

/-- `lru.Get`: on a hit return the value and move the entry to the
front; on a miss leave the cache unchanged. -/
def LRU.get (c : LRU) (k : Nat) : Option ByteStr × LRU :=
  match lookupKey k c.entries with
  | none => (none, c)
  | some v => (some v, { c with entries := (k, v) :: eraseKey k c.entries })

/-- `lru.Add`: insert (or refresh) the key at the front; when the
capacity is now exceeded, evict the last — least recently used —
entry. -/
def LRU.add (c : LRU) (k : Nat) (v : ByteStr) : LRU :=
  let l := (k, v) :: eraseKey k c.entries
  { c with entries := if c.cap < l.length then l.dropLast else l }

/-- The initial cache of the package-level
`var activePids, _ = lru.New[uint32, string](64)`: empty, capacity 64. -/
def activePids0 : LRU := { entries := [], cap := 64 }

/-! ## The process-identity resolver

`serviceName` / `commName` / `commNameOfDeadPid` perform I/O (a
`/proc/<pid>/comm` stat and read, and a lookup in the kernel-maintained
`DeadPids` BPF map).  The environment read by that I/O is passed
explicitly. -/

/-- The world the resolver reads: whether `os.Stat("/proc/<pid>/comm")`
fails with not-exist, what `os.ReadFile` of that path returns (`none`
standing for a read error), and the kernel-maintained dead-process map
`DeadPids` (`none` standing for a failed `Lookup`). -/
structure EnvState where
  statNotExist : Nat → Bool
  readComm : Nat → Option ByteStr
  deadPids : Nat → Option ByteStr

/-- `commNameOfDeadPid` from the source: look the pid up in the
`DeadPids` map; a failed lookup yields `""`, a hit yields the snapshot
cut at its first zero byte (`cstr`). -/
def commNameOfDeadPid (env : EnvState) (pid : Nat) : ByteStr :=
  match env.deadPids pid with
  | none => []
  | some name => cstr name

/-- `commName` from the source: if `/proc/<pid>/comm` does not exist,
fall back to the dead-pid map.  Otherwise read the file; note that on a
read error the source calls `p.commNameOfDeadPid(pid)` but DISCARDS the
result (the statement is not a `return`), so the function falls through
to `strings.TrimSpace(string(nil))`, i.e. `""`. -/
def commName (env : EnvState) (pid : Nat) : ByteStr :=
  if env.statNotExist pid then commNameOfDeadPid env pid
  else
    match env.readComm pid with
    | none => trimSpace []
    | some content => trimSpace content

/-- `serviceName` from the source: consult the `activePids` cache first;
on a miss resolve through `commName` and write the result — whatever it
is, `""` included — into the cache before returning. -/
def serviceName (env : EnvState) (pid : Nat) (cache : LRU) : ByteStr × LRU :=
  match cache.get pid with
  | (some cached, cache') => (cached, cache')
  | (none, cache') =>
    let name := commName env pid
    (name, cache'.add pid name)

/-- A sequence of resolve operations threaded through the cache. -/
def resolveAll (env : EnvState) (pids : List Nat) (c : LRU) : LRU :=
  pids.foldl (fun c pid => (serviceName env pid c).2) c

/-! ## The decoder `toRequestTrace` -/

/-- `HTTPInfo` from the source.  `Host` and `Peer` hold the copied
16-byte address fields of the record (the textual IP rendering of
`hostInfo` is not modelled; no claim concerns it). -/
structure HTTPInfo where
  Event : BPFHTTPInfo
  Method : ByteStr
  URL : ByteStr
  Comm : ByteStr
  Host : ByteStr
  Peer : ByteStr
  deriving Repr, DecidableEq

/-- `hostInfo` from the source: copy the source and destination address
bytes out of the record (source first, then destination). -/
def hostInfo (event : BPFHTTPInfo) : ByteStr × ByteStr :=
  (event.ConnInfo.S_addr, event.ConnInfo.D_addr)

/-- `toRequestTrace` from the source: decode the raw sample; a decode
error is returned with no usable record.  On success build the
`HTTPInfo` record, filling `Comm` through the resolver only in
system-wide mode. -/
def toRequestTrace (systemWide : Bool) (env : EnvState) (bufCap : Nat)
    (bytes : List Nat) (cache : LRU) : Except DecodeError HTTPInfo × LRU :=
  match decodeBPFHTTPInfo bufCap bytes with
  | .error e => (.error e, cache)
  | .ok event =>
    let st := hostInfo event
    let cr := if systemWide then serviceName env event.Pid cache else ([], cache)
    (.ok { Event := event
           Method := method event.Buf
           URL := url event.Buf
           Comm := cr.1
           Host := st.2
           Peer := st.1 }, cr.2)

/-! ## The constant provider -/

/-- A value placed in the `Constants` map (`map[string]any`). -/
inductive ConstVal where
  | ofPid : Nat → ConstVal
  | ofNs : Nat → ConstVal
  deriving Repr, DecidableEq

/-- `Constants` from the source, with `findNamespace` modelled from the
spec: "the namespace id is looked up from the target process's namespace
membership; if that lookup fails the failure is logged as a warning and
the constant is still emitted with a degraded/default value" — `none`
stands for the failed lookup, degrading to the zero value.  System-wide
mode returns the nil map; otherwise the map holds `current_pid` and
`current_pid_ns_id`. -/
def Constants (systemWide : Bool) (pid : Nat) (nsLookup : Option Nat) :
    List (String × ConstVal) :=
  if systemWide then []
  else
    [("current_pid", ConstVal.ofPid pid),
     ("current_pid_ns_id", ConstVal.ofNs (nsLookup.getD 0))]

/-! ## The probe declaration table -/

/-- The BPF program handles of `bpfObjects` referenced by the probe
table (generated objects; only their identity matters here). -/
inductive BpfProg where
  | kretprobeSysAccept4
  | kretprobeSockAlloc
  | kprobeTcpRcvEstablished
  | kretprobeSysConnect
  | kprobeTcpConnect
  | kprobeSysExit
  deriving Repr, DecidableEq

/-- `ebpfcommon.FunctionPrograms`: requiredness plus the optional entry
(`Start`) and exit (`End`) programs. -/
structure FunctionPrograms where
  Required : Bool
  Start : Option BpfProg := none
  End : Option BpfProg := none
  deriving Repr, DecidableEq

/-- `KProbes` from the source: the base six probes, plus — only in
system-wide mode — the two process-exit probes that keep the dead-pid
map populated.  The Go map is modelled as an association list; only
per-key lookups are observed. -/
def KProbes (systemWide : Bool) : List (String × FunctionPrograms) :=
  [("sys_accept", { Required := true, End := some .kretprobeSysAccept4 }),
   ("sys_accept4", { Required := true, End := some .kretprobeSysAccept4 }),
   ("sock_alloc", { Required := true, End := some .kretprobeSockAlloc }),
   ("tcp_rcv_established", { Required := true, Start := some .kprobeTcpRcvEstablished }),
   ("sys_connect", { Required := true, End := some .kretprobeSysConnect }),
   ("tcp_connect", { Required := true, Start := some .kprobeTcpConnect })]
  ++ (if systemWide then
        [("sys_exit", { Required := true, Start := some .kprobeSysExit }),
         ("sys_exit_group", { Required := true, Start := some .kprobeSysExit })]
      else [])

/-- Lookup of a probe declaration by kernel-function name. -/
def lookupProbe (name : String) (t : List (String × FunctionPrograms)) :
    Option FunctionPrograms :=
  match t with
  | [] => none
  | e :: rest => if e.1 = name then some e.2 else lookupProbe name rest

/-! ## Spec-worded definition used to compare against the code (C4) -/

/-- What the spec claims the dead-snapshot cleanup does, written from the
spec's words: "trim trailing padding/whitespace from the snapshot" —
drop trailing bytes that are zero padding or whitespace. -/
def specTrimTrailingPadWS (snapshot : ByteStr) : ByteStr :=
  (snapshot.reverse.dropWhile (fun b => b = 0 || isGoSpace b)).reverse

/-! ## Lemmas about the space scan -/

theorem strIndex_eq_none (n : Nat) (l : List Nat) (h : ∀ b ∈ l, b ≠ n) :
    strIndex n l = none := by
  induction l with
  | nil => rfl
  | cons b rest ih =>
    have hb : b ≠ n := h b (by simp)
    simp [strIndex, hb, ih (fun x hx => h x (by simp [hx]))]

theorem strIndex_append_cons (n : Nat) (pre rest : List Nat)
    (h : ∀ b ∈ pre, b ≠ n) :
    strIndex n (pre ++ n :: rest) = some pre.length := by
  induction pre with
  | nil => simp [strIndex]
  | cons b p ih =>
    have hb : b ≠ n := h b (by simp)
    simp [strIndex, hb, ih (fun x hx => h x (by simp [hx]))]

theorem drop_append_cons (pre : List Nat) (x : Nat) (rest : List Nat) :
    (pre ++ x :: rest).drop (pre.length + 1) = rest := by
  have h : pre ++ x :: rest = (pre ++ [x]) ++ rest := by simp
  have hl : (pre ++ [x]).length = pre.length + 1 := by simp
  rw [h, ← hl, List.drop_left]

theorem method_split (pre post : ByteStr) (h : ∀ b ∈ pre, b ≠ spaceByte) :
    method (pre ++ spaceByte :: post) = pre := by
  unfold method
  rw [strIndex_append_cons _ _ _ h]
  simp [List.take_left]

theorem url_split_two (pre mid post : ByteStr)
    (hp : ∀ b ∈ pre, b ≠ spaceByte) (hm : ∀ b ∈ mid, b ≠ spaceByte) :
    url (pre ++ spaceByte :: (mid ++ spaceByte :: post)) = mid := by
  unfold url
  rw [strIndex_append_cons _ _ _ hp]
  simp only [drop_append_cons]
  rw [strIndex_append_cons _ _ _ hm]
  simp [List.take_left]

theorem url_split_one (pre post : ByteStr)
    (hp : ∀ b ∈ pre, b ≠ spaceByte) (hpost : ∀ b ∈ post, b ≠ spaceByte) :
    url (pre ++ spaceByte :: post) = [] := by
  unfold url
  rw [strIndex_append_cons _ _ _ hp]
  simp only [drop_append_cons]
  rw [strIndex_eq_none _ _ hpost]

theorem method_no_space (buf : ByteStr) (h : ∀ b ∈ buf, b ≠ spaceByte) :
    method buf = [] := by
  unfold method
  rw [strIndex_eq_none _ _ h]

theorem url_no_space (buf : ByteStr) (h : ∀ b ∈ buf, b ≠ spaceByte) :
    url buf = [] := by
  unfold url
  rw [strIndex_eq_none _ _ h]

/-- C2: Method/URL extraction on a fixed-capacity buffer: with no space
anywhere, Method and URL are both `""` and no error is possible;
otherwise Method is the substring before the first space; with no
further space after the first, URL is `""`; otherwise URL is the
substring strictly between the first and second spaces (so a buffer
starting `"GET /foo HTTP/1.1"` yields Method `"GET"` and URL
`"/foo"`). -/
theorem method_url_extraction (buf : ByteStr) :
    ((∀ b ∈ buf, b ≠ spaceByte) → method buf = [] ∧ url buf = []) ∧
    (∀ pre post, buf = pre ++ spaceByte :: post → (∀ b ∈ pre, b ≠ spaceByte) →
      method buf = pre ∧
      ((∀ b ∈ post, b ≠ spaceByte) → url buf = []) ∧
      (∀ mid post2, post = mid ++ spaceByte :: post2 → (∀ b ∈ mid, b ≠ spaceByte) →
        url buf = mid)) := by
  refine ⟨fun h => ⟨method_no_space buf h, url_no_space buf h⟩, ?_⟩
  rintro pre post rfl hpre
  refine ⟨method_split pre post hpre, fun hpost => url_split_one pre post hpre hpost, ?_⟩
  rintro mid post2 rfl hmid
  exact url_split_two pre mid post2 hpre hmid

/-- C2 witness: the buffer `"GET /foo HTTP/1.1"` yields Method `"GET"`
and URL `"/foo"`. -/
theorem method_url_extraction_witness :
    method [71, 69, 84, 32, 47, 102, 111, 111, 32, 72, 84, 84, 80, 47, 49, 46, 49]
      = [71, 69, 84] ∧
    url [71, 69, 84, 32, 47, 102, 111, 111, 32, 72, 84, 84, 80, 47, 49, 46, 49]
      = [47, 102, 111, 111] := by
  have h := (method_url_extraction
      [71, 69, 84, 32, 47, 102, 111, 111, 32, 72, 84, 84, 80, 47, 49, 46, 49]).2
      [71, 69, 84] [47, 102, 111, 111, 32, 72, 84, 84, 80, 47, 49, 46, 49]
      rfl (by decide)
  exact ⟨h.1, h.2.2 [47, 102, 111, 111] [72, 84, 84, 80, 47, 49, 46, 49] rfl (by decide)⟩

/-- C10: the space scan is oblivious to embedded zero bytes — it runs
over the whole fixed buffer as one string, so a space sitting after an
embedded NUL still delimits, and the returned Method and URL byte
strings can themselves contain NUL bytes. -/
theorem method_url_scan_over_nul (pre mid post : ByteStr)
    (hp0 : 0 ∈ pre) (hm0 : 0 ∈ mid)
    (hp : ∀ b ∈ pre, b ≠ spaceByte) (hm : ∀ b ∈ mid, b ≠ spaceByte) :
    method (pre ++ spaceByte :: (mid ++ spaceByte :: post)) = pre ∧
    url (pre ++ spaceByte :: (mid ++ spaceByte :: post)) = mid ∧
    0 ∈ method (pre ++ spaceByte :: (mid ++ spaceByte :: post)) ∧
    0 ∈ url (pre ++ spaceByte :: (mid ++ spaceByte :: post)) := by
  have hmeth : method (pre ++ spaceByte :: (mid ++ spaceByte :: post)) = pre := by
    have h := method_split pre (mid ++ spaceByte :: post) hp
    exact h
  have hurl := url_split_two pre mid post hp hm
  refine ⟨hmeth, hurl, ?_, ?_⟩
  · rw [hmeth]; exact hp0
  · rw [hurl]; exact hm0

/-- C10 witness: buffer `"G\x00 /\x00 H"` — the NUL inside `"G\x00"`
does not stop the scan, and both Method and URL carry a NUL byte. -/
theorem method_url_scan_over_nul_witness :
    method [71, 0, 32, 47, 0, 32, 72] = [71, 0] ∧
    url [71, 0, 32, 47, 0, 32, 72] = [47, 0] ∧
    0 ∈ method [71, 0, 32, 47, 0, 32, 72] ∧
    0 ∈ url [71, 0, 32, 47, 0, 32, 72] :=
  method_url_scan_over_nul [71, 0] [47, 0] [72]
    (by decide) (by decide) (by decide) (by decide)

/-! ## Lemmas about the decoder -/

theorem exceptBind_ok {α β : Type} (a : α) (f : α → Except DecodeError β) :
    (Except.ok a >>= f) = f a := rfl

theorem exceptBind_err {α β : Type} (e : DecodeError) (f : α → Except DecodeError β) :
    ((Except.error e : Except DecodeError α) >>= f) = Except.error e := rfl

theorem decode_ok_of_le (bufCap : Nat) (bytes : List Nat)
    (h : rawHTTPEventSize bufCap ≤ bytes.length) :
    ∃ ev, decodeBPFHTTPInfo bufCap bytes = Except.ok ev := by
  unfold rawHTTPEventSize at h
  have h1 : 16 ≤ bytes.length := by omega
  have h2 : 16 ≤ bytes.length - 16 := by omega
  have h3 : 4 ≤ bytes.length - 16 - 16 := by omega
  have h3' : 4 ≤ bytes.length - 32 := by omega
  have h4 : bufCap ≤ bytes.length - 16 - 16 - 4 := by omega
  have h4' : bufCap ≤ bytes.length - 36 := by omega
  simp [decodeBPFHTTPInfo, readBytes, List.length_drop, h1, h2, h3, h3', h4, h4',
    exceptBind_ok, exceptBind_err]

theorem decode_err_of_lt (bufCap : Nat) (bytes : List Nat)
    (h : bytes.length < rawHTTPEventSize bufCap) :
    decodeBPFHTTPInfo bufCap bytes = Except.error DecodeError.unexpectedEOF := by
  unfold rawHTTPEventSize at h
  by_cases h1 : 16 ≤ bytes.length
  · by_cases h2 : 16 ≤ bytes.length - 16
    · by_cases h3 : 4 ≤ bytes.length - 16 - 16
      · have h3' : 4 ≤ bytes.length - 32 := by omega
        have h4 : ¬ bufCap ≤ bytes.length - 16 - 16 - 4 := by omega
        have h4' : ¬ bufCap ≤ bytes.length - 36 := by omega
        simp [decodeBPFHTTPInfo, readBytes, List.length_drop, h1, h2, h3, h3', h4, h4',
          exceptBind_ok, exceptBind_err]
      · have h3' : ¬ 4 ≤ bytes.length - 32 := by omega
        simp [decodeBPFHTTPInfo, readBytes, List.length_drop, h1, h2, h3, h3',
          exceptBind_ok, exceptBind_err]
    · simp [decodeBPFHTTPInfo, readBytes, List.length_drop, h1, h2,
        exceptBind_ok, exceptBind_err]
  · simp [decodeBPFHTTPInfo, readBytes, List.length_drop, h1,
      exceptBind_ok, exceptBind_err]

/-- An environment in which no pid resolves: every `/proc/<pid>/comm`
stat reports not-exist, every read fails, the dead-pid map is empty. -/
def envNothing : EnvState :=
  { statNotExist := fun _ => true, readComm := fun _ => none, deadPids := fun _ => none }

/-- C1: `toRequestTrace` succeeds and returns a record exactly when the
input byte sequence is at least the fixed `RawHTTPEvent` size; every
shorter sequence yields a decode error and no record — the `Except`
result carries either a record or the error, never both. -/
theorem toRequestTrace_size_gate (bufCap : Nat) (systemWide : Bool) (env : EnvState)
    (bytes : List Nat) (cache : LRU) :
    (rawHTTPEventSize bufCap ≤ bytes.length →
      ∃ info, (toRequestTrace systemWide env bufCap bytes cache).1 = Except.ok info) ∧
    (bytes.length < rawHTTPEventSize bufCap →
      (toRequestTrace systemWide env bufCap bytes cache).1
        = Except.error DecodeError.unexpectedEOF) := by
  constructor
  · intro h
    obtain ⟨ev, hev⟩ := decode_ok_of_le bufCap bytes h
    simp [toRequestTrace, hev]
  · intro h
    simp [toRequestTrace, decode_err_of_lt bufCap bytes h]

/-- C1 witness: with buffer capacity 2 the record size is 38; a 38-byte
input decodes to a record, a 3-byte input is a decode error. -/
theorem toRequestTrace_size_gate_witness :
    (∃ info, (toRequestTrace false envNothing 2 (List.replicate 38 7) activePids0).1
        = Except.ok info) ∧
    (toRequestTrace false envNothing 2 [1, 2, 3] activePids0).1
        = Except.error DecodeError.unexpectedEOF :=
  ⟨(toRequestTrace_size_gate 2 false envNothing (List.replicate 38 7) activePids0).1
      (by simp [rawHTTPEventSize]),
   (toRequestTrace_size_gate 2 false envNothing [1, 2, 3] activePids0).2
      (by simp [rawHTTPEventSize])⟩

/-! ## Lemmas about the resolver and its LRU cache -/

theorem cstr_eq_takeWhile (l : ByteStr) : cstr l = l.takeWhile (fun b => b != 0) := by
  induction l with
  | nil => rfl
  | cons b rest ih =>
    by_cases hb : b = 0
    · subst hb; simp [cstr, strIndex]
    · cases h : strIndex 0 rest with
      | none =>
        have hr : rest.takeWhile (fun b => b != 0) = rest := by
          have hc : cstr rest = rest := by simp [cstr, h]
          rw [← ih, hc]
        simp [cstr, strIndex, hb, h, List.takeWhile_cons, hr]
      | some n =>
        have hr : rest.takeWhile (fun b => b != 0) = rest.take n := by
          have hc : cstr rest = rest.take n := by simp [cstr, h]
          rw [← ih, hc]
        simp [cstr, strIndex, hb, h, List.takeWhile_cons, hr]

theorem eraseKey_length_le (k : Nat) (l : List (Nat × ByteStr)) :
    (eraseKey k l).length ≤ l.length := by
  induction l with
  | nil => simp [eraseKey]
  | cons e rest ih => by_cases he : e.1 = k <;> simp [eraseKey, he] <;> omega

theorem eraseKey_length_lt (k : Nat) (l : List (Nat × ByteStr)) (v : ByteStr)
    (h : lookupKey k l = some v) : (eraseKey k l).length < l.length := by
  induction l with
  | nil => simp [lookupKey] at h
  | cons e rest ih =>
    by_cases he : e.1 = k
    · simp only [eraseKey, he, if_true, List.length_cons]
      exact Nat.lt_succ_of_le (eraseKey_length_le k rest)
    · simp only [lookupKey, he, if_false] at h
      simp only [eraseKey, he, if_false, List.length_cons]
      exact Nat.succ_lt_succ (ih h)

theorem eraseKey_of_lookup_none (k : Nat) (l : List (Nat × ByteStr))
    (h : lookupKey k l = none) : eraseKey k l = l := by
  induction l with
  | nil => rfl
  | cons e rest ih =>
    by_cases he : e.1 = k
    · simp [lookupKey, he] at h
    · simp only [lookupKey, he, if_false] at h
      simp [eraseKey, he, ih h]

theorem dropLast_cons_of_ne_nil {α : Type} (a : α) (l : List α) (h : l ≠ []) :
    (a :: l).dropLast = a :: l.dropLast := by
  cases l with
  | nil => exact absurd rfl h
  | cons b t => rfl

theorem serviceName_miss (env : EnvState) (pid : Nat) (c : LRU)
    (h : lookupKey pid c.entries = none) :
    serviceName env pid c = (commName env pid, c.add pid (commName env pid)) := by
  simp [serviceName, LRU.get, h]

theorem serviceName_hit (env : EnvState) (pid : Nat) (c : LRU) (v : ByteStr)
    (h : lookupKey pid c.entries = some v) :
    serviceName env pid c
      = (v, { c with entries := (pid, v) :: eraseKey pid c.entries }) := by
  simp [serviceName, LRU.get, h]

theorem add_lookup_self (c : LRU) (k : Nat) (v : ByteStr) (hcap : 0 < c.cap) :
    lookupKey k (c.add k v).entries = some v := by
  simp only [LRU.add, List.length_cons]
  by_cases hc : c.cap < (eraseKey k c.entries).length + 1
  · rw [if_pos hc]
    have hnil : eraseKey k c.entries ≠ [] := by
      intro h
      rw [h] at hc
      simp at hc
      omega
    rw [dropLast_cons_of_ne_nil _ _ hnil]
    simp [lookupKey]
  · rw [if_neg hc]
    simp [lookupKey]

theorem serviceName_cap (env : EnvState) (pid : Nat) (c : LRU) :
    (serviceName env pid c).2.cap = c.cap := by
  cases h : lookupKey pid c.entries with
  | none => rw [serviceName_miss env pid c h]; simp [LRU.add]
  | some v => rw [serviceName_hit env pid c v h]

theorem serviceName_len (env : EnvState) (pid : Nat) (c : LRU)
    (h : c.entries.length ≤ c.cap) :
    (serviceName env pid c).2.entries.length ≤ c.cap := by
  cases hl : lookupKey pid c.entries with
  | some v =>
    rw [serviceName_hit env pid c v hl]
    have := eraseKey_length_lt pid c.entries v hl
    simp only [List.length_cons]
    omega
  | none =>
    rw [serviceName_miss env pid c hl]
    simp only [LRU.add, List.length_cons]
    have he := eraseKey_length_le pid c.entries
    by_cases hc : c.cap < (eraseKey pid c.entries).length + 1
    · rw [if_pos hc]
      simp only [List.length_dropLast, List.length_cons]
      omega
    · rw [if_neg hc]
      simp only [List.length_cons]
      omega

theorem resolveAll_len (env : EnvState) (pids : List Nat) :
    ∀ c : LRU, c.entries.length ≤ c.cap →
      (resolveAll env pids c).cap = c.cap ∧
      (resolveAll env pids c).entries.length ≤ c.cap := by
  induction pids with
  | nil => exact fun c h => ⟨rfl, h⟩
  | cons p rest ih =>
    intro c h
    have hcap := serviceName_cap env p c
    have hlen := serviceName_len env p c h
    have hrec := ih (serviceName env p c).2 (by rw [hcap]; exact hlen)
    have hfold : resolveAll env (p :: rest) c = resolveAll env rest (serviceName env p c).2 := by
      simp [resolveAll]
    rw [hfold]
    exact ⟨by rw [hrec.1, hcap], by rw [hcap] at hrec; exact hrec.2⟩

/-- C3: identity resolution is total by construction (`serviceName`
returns a plain string, there is no error channel), and a pid that is
not cached, whose live `/proc` entry does not exist and which the
dead-process table does not know resolves to the empty string. -/
theorem serviceName_total_empty (env : EnvState) (pid : Nat) (c : LRU)
    (hmiss : lookupKey pid c.entries = none)
    (hstat : env.statNotExist pid = true)
    (hdead : env.deadPids pid = none) :
    (serviceName env pid c).1 = [] := by
  rw [serviceName_miss env pid c hmiss]
  simp [commName, hstat, commNameOfDeadPid, hdead]

/-- C3 witness: pid 7 in the empty environment resolves to `""`. -/
theorem serviceName_total_empty_witness :
    (serviceName envNothing 7 activePids0).1 = [] :=
  serviceName_total_empty envNothing 7 activePids0 rfl rfl rfl

/-- C4 (amended): for an uncached pid whose live process no longer
exists but which has a dead-table entry, resolve returns the prefix of
the 16-byte snapshot strictly before its first zero byte (the whole
snapshot if it has none); trailing whitespace is NOT trimmed. -/
theorem serviceName_dead_snapshot (env : EnvState) (pid : Nat) (c : LRU)
    (snapshot : ByteStr)
    (hmiss : lookupKey pid c.entries = none)
    (hstat : env.statNotExist pid = true)
    (hdead : env.deadPids pid = some snapshot)
    (_hlen : snapshot.length = 16) :
    (serviceName env pid c).1 = snapshot.takeWhile (fun b => b != 0) := by
  rw [serviceName_miss env pid c hmiss]
  simp [commName, hstat, commNameOfDeadPid, hdead, cstr_eq_takeWhile]

/-- C4 witness: snapshot `"bash"` padded with 12 NUL bytes resolves to
`"bash"`. -/
theorem serviceName_dead_snapshot_witness :
    (serviceName
        { statNotExist := fun _ => true, readComm := fun _ => none,
          deadPids := fun p =>
            if p = 9 then some [98, 97, 115, 104, 0, 0, 0, 0, 0, 0, 0, 0, 0, 0, 0, 0]
            else none }
        9 activePids0).1
      = ([98, 97, 115, 104, 0, 0, 0, 0, 0, 0, 0, 0, 0, 0, 0, 0] : ByteStr).takeWhile
          (fun b => b != 0) :=
  serviceName_dead_snapshot
    { statNotExist := fun _ => true, readComm := fun _ => none,
      deadPids := fun p =>
        if p = 9 then some [98, 97, 115, 104, 0, 0, 0, 0, 0, 0, 0, 0, 0, 0, 0, 0]
        else none }
    9 activePids0 [98, 97, 115, 104, 0, 0, 0, 0, 0, 0, 0, 0, 0, 0, 0, 0]
    rfl rfl (by decide) rfl

/-- C4 counterexample: snapshot `"ls \x00..."` (a trailing space before
the NUL padding).  The code resolves it to `"ls "` — the space survives —
while trimming trailing padding/whitespace, as the claim states, would
give `"ls"`. -/
theorem serviceName_dead_snapshot_counterexample :
    (serviceName
        { statNotExist := fun _ => true, readComm := fun _ => none,
          deadPids := fun p =>
            if p = 5 then some [108, 115, 32, 0, 0, 0, 0, 0, 0, 0, 0, 0, 0, 0, 0, 0]
            else none }
        5 activePids0).1
      = [108, 115, 32] ∧
    specTrimTrailingPadWS [108, 115, 32, 0, 0, 0, 0, 0, 0, 0, 0, 0, 0, 0, 0, 0]
      = [108, 115] ∧
    ([108, 115, 32] : ByteStr) ≠ [108, 115] := by
  refine ⟨by decide, by decide, by decide⟩

/-- C5: on a cache miss the resolved name — whatever it is, `""`
included — is stored in the cache before `serviceName` returns, so a
second resolve of the same pid returns the identical name no matter what
the underlying live and dead tables now say (i.e. without any further
underlying lookup). -/
theorem serviceName_negative_cache (env : EnvState) (pid : Nat) (c : LRU)
    (hmiss : lookupKey pid c.entries = none) (hcap : 0 < c.cap) :
    lookupKey pid (serviceName env pid c).2.entries = some (serviceName env pid c).1 ∧
    ∀ env2 : EnvState,
      (serviceName env2 pid (serviceName env pid c).2).1 = (serviceName env pid c).1 := by
  rw [serviceName_miss env pid c hmiss]
  have hself := add_lookup_self c pid (commName env pid) hcap
  refine ⟨hself, fun env2 => ?_⟩
  rw [serviceName_hit env2 pid _ _ hself]

/-- C5 witness: pid 42 misses in the empty cache and resolves to `""`;
a second resolve in a changed world (where pid 42 is now live with name
`"x"`) still returns the cached `""`. -/
theorem serviceName_negative_cache_witness :
    lookupKey 42 (serviceName envNothing 42 activePids0).2.entries
      = some (serviceName envNothing 42 activePids0).1 ∧
    (serviceName
        { statNotExist := fun _ => false, readComm := fun _ => some [120],
          deadPids := fun _ => none }
        42 (serviceName envNothing 42 activePids0).2).1
      = (serviceName envNothing 42 activePids0).1 := by
  have h := serviceName_negative_cache envNothing 42 activePids0 rfl (by decide)
  exact ⟨h.1, h.2 _⟩

/-- A concretely full cache: 64 distinct pids `0..63`, pid 63 least
recently used. -/
def cacheFull64 : LRU := { entries := (List.range 64).map (fun i => (i, [])), cap := 64 }

/-- C6: after any sequence of resolves starting from the fresh cache the
identity cache holds at most 64 entries, and resolving a 65th distinct
pid against a full cache inserts it and evicts exactly the last —
least recently used — entry; eviction only ever happens on this
capacity condition (the model, like the code, has no clock). -/
theorem activePids_bounded_lru :
    (∀ (env : EnvState) (pids : List Nat),
      (resolveAll env pids activePids0).entries.length ≤ 64) ∧
    (∀ (env : EnvState) (pid : Nat) (c : LRU),
      c.cap = 64 → c.entries.length = 64 →
      lookupKey pid c.entries = none →
      (serviceName env pid c).2.entries
        = (pid, commName env pid) :: c.entries.dropLast) := by
  constructor
  · intro env pids
    have h := (resolveAll_len env pids activePids0 (by simp [activePids0])).2
    simpa [activePids0] using h
  · intro env pid c hcap hlen hmiss
    rw [serviceName_miss env pid c hmiss]
    simp only [LRU.add, List.length_cons]
    rw [eraseKey_of_lookup_none pid c.entries hmiss]
    have hcond : c.cap < c.entries.length + 1 := by omega
    rw [if_pos hcond]
    have hne : c.entries ≠ [] := by
      intro h
      rw [h] at hlen
      simp at hlen
    exact dropLast_cons_of_ne_nil _ _ hne

/-- C6 witness: pid 100 is fresh for the full cache `0..63`; resolving
it inserts `(100, "")` at the front and drops the entry for pid 63. -/
theorem activePids_bounded_lru_witness :
    (serviceName envNothing 100 cacheFull64).2.entries
      = (100, commName envNothing 100) :: cacheFull64.entries.dropLast :=
  activePids_bounded_lru.2 envNothing 100 cacheFull64 rfl (by decide) (by decide)

/-- C7: `Constants` returns no constants in system-wide mode; in
single-target mode it returns exactly the keys `current_pid` and
`current_pid_ns_id`, and a failed namespace-id lookup still emits
`current_pid_ns_id`, degraded to the zero value, instead of failing. -/
theorem Constants_modes :
    (∀ (pid : Nat) (ns : Option Nat), Constants true pid ns = []) ∧
    (∀ (pid : Nat) (ns : Option Nat),
      (Constants false pid ns).map Prod.fst = ["current_pid", "current_pid_ns_id"]) ∧
    (∀ (pid n : Nat),
      Constants false pid (some n)
        = [("current_pid", ConstVal.ofPid pid), ("current_pid_ns_id", ConstVal.ofNs n)]) ∧
    (∀ pid : Nat,
      Constants false pid none
        = [("current_pid", ConstVal.ofPid pid), ("current_pid_ns_id", ConstVal.ofNs 0)]) :=
  ⟨fun _ _ => rfl, fun _ _ => rfl, fun _ _ => rfl, fun _ => rfl⟩

/-- C8 counterexample: the accept-family probes carry no entry program at
all — in both modes `sys_accept` (and `sys_accept4`) is declared with
`Start = none`, only an exit program — so "paired entry and exit
programs" fails. -/
theorem KProbes_accept_no_entry_counterexample :
    (lookupProbe "sys_accept" (KProbes false)).map (fun fp => fp.Start) = some none ∧
    (lookupProbe "sys_accept4" (KProbes false)).map (fun fp => fp.Start) = some none ∧
    (lookupProbe "sys_accept" (KProbes true)).map (fun fp => fp.Start) = some none :=
  ⟨rfl, rfl, rfl⟩

/-- C8 (amended): in every mode the probe table declares the two
accept-family syscall probes with exit programs only — both bound to the
same exit program and both marked required — plus a socket-allocation
probe (exit program) also marked required. -/
theorem KProbes_accept_family (systemWide : Bool) :
    lookupProbe "sys_accept" (KProbes systemWide)
      = some { Required := true, Start := none, End := some BpfProg.kretprobeSysAccept4 } ∧
    lookupProbe "sys_accept4" (KProbes systemWide)
      = some { Required := true, Start := none, End := some BpfProg.kretprobeSysAccept4 } ∧
    lookupProbe "sock_alloc" (KProbes systemWide)
      = some { Required := true, Start := none, End := some BpfProg.kretprobeSockAlloc } := by
  cases systemWide <;> exact ⟨rfl, rfl, rfl⟩

/-- C9: the two process-exit probes `sys_exit` and `sys_exit_group`,
both required and bound to the same entry program, are declared exactly
when system-wide mode is active; in single-target mode neither is in
the table. -/
theorem KProbes_exit_probes_iff_system_wide :
    lookupProbe "sys_exit" (KProbes true)
      = some { Required := true, Start := some BpfProg.kprobeSysExit, End := none } ∧
    lookupProbe "sys_exit_group" (KProbes true)
      = some { Required := true, Start := some BpfProg.kprobeSysExit, End := none } ∧
    lookupProbe "sys_exit" (KProbes false) = none ∧
    lookupProbe "sys_exit_group" (KProbes false) = none :=
  ⟨rfl, rfl, rfl, rfl⟩
